import Mathlib

set_option maxRecDepth 4000

/-!
# Verification of the langchat client-side streaming reconciliation layer

This development shallowly embeds the reconciliation logic of
`src/app/components/ChatInterface.tsx`, `src/app/components/InterruptBubble.tsx`
and `src/app/contexts/StatisticsContext.tsx` and proves properties of it.

JavaScript values flowing through the stream are modelled by the inductive
`Json` below; JS `Map` objects are modelled as insertion-ordered association
lists (`List (String × α)`), matching JS `Map` iteration semantics.  The
platform built-ins `TextDecoder` and `JSON.parse` are external collaborators:
the transport reader is modelled at the granularity of already-decoded lines
whose `data:` payloads are already-parsed `Json` values.
-/

/-- A JSON-like JavaScript value (the payloads carried by the SSE stream).
`undefined` and absent fields are both modelled as an absent key. -/
inductive Json where
  | null
  | bool (b : Bool)
  | num (n : Int)
  | str (s : String)
  | arr (elems : List Json)
  | obj (fields : List (String × Json))

mutual

def Json.decEq : (a b : Json) → Decidable (a = b)
  | .null, .null => isTrue rfl
  | .null, .bool _ => isFalse (fun h => Json.noConfusion h)
  | .null, .num _ => isFalse (fun h => Json.noConfusion h)
  | .null, .str _ => isFalse (fun h => Json.noConfusion h)
  | .null, .arr _ => isFalse (fun h => Json.noConfusion h)
  | .null, .obj _ => isFalse (fun h => Json.noConfusion h)
  | .bool _, .null => isFalse (fun h => Json.noConfusion h)
  | .bool a, .bool b =>
      match Bool.decEq a b with
      | isTrue h => isTrue (h ▸ rfl)
      | isFalse h => isFalse (fun hh => h (Json.bool.inj hh))
  | .bool _, .num _ => isFalse (fun h => Json.noConfusion h)
  | .bool _, .str _ => isFalse (fun h => Json.noConfusion h)
  | .bool _, .arr _ => isFalse (fun h => Json.noConfusion h)
  | .bool _, .obj _ => isFalse (fun h => Json.noConfusion h)
  | .num _, .null => isFalse (fun h => Json.noConfusion h)
  | .num _, .bool _ => isFalse (fun h => Json.noConfusion h)
  | .num a, .num b =>
      match Int.decEq a b with
      | isTrue h => isTrue (h ▸ rfl)
      | isFalse h => isFalse (fun hh => h (Json.num.inj hh))
  | .num _, .str _ => isFalse (fun h => Json.noConfusion h)
  | .num _, .arr _ => isFalse (fun h => Json.noConfusion h)
  | .num _, .obj _ => isFalse (fun h => Json.noConfusion h)
  | .str _, .null => isFalse (fun h => Json.noConfusion h)
  | .str _, .bool _ => isFalse (fun h => Json.noConfusion h)
  | .str _, .num _ => isFalse (fun h => Json.noConfusion h)
  | .str a, .str b =>
      match String.decEq a b with
      | isTrue h => isTrue (h ▸ rfl)
      | isFalse h => isFalse (fun hh => h (Json.str.inj hh))
  | .str _, .arr _ => isFalse (fun h => Json.noConfusion h)
  | .str _, .obj _ => isFalse (fun h => Json.noConfusion h)
  | .arr _, .null => isFalse (fun h => Json.noConfusion h)
  | .arr _, .bool _ => isFalse (fun h => Json.noConfusion h)
  | .arr _, .num _ => isFalse (fun h => Json.noConfusion h)
  | .arr _, .str _ => isFalse (fun h => Json.noConfusion h)
  | .arr a, .arr b =>
      match Json.decEqList a b with
      | isTrue h => isTrue (h ▸ rfl)
      | isFalse h => isFalse (fun hh => h (Json.arr.inj hh))
  | .arr _, .obj _ => isFalse (fun h => Json.noConfusion h)
  | .obj _, .null => isFalse (fun h => Json.noConfusion h)
  | .obj _, .bool _ => isFalse (fun h => Json.noConfusion h)
  | .obj _, .num _ => isFalse (fun h => Json.noConfusion h)
  | .obj _, .str _ => isFalse (fun h => Json.noConfusion h)
  | .obj _, .arr _ => isFalse (fun h => Json.noConfusion h)
  | .obj a, .obj b =>
      match Json.decEqFields a b with
      | isTrue h => isTrue (h ▸ rfl)
      | isFalse h => isFalse (fun hh => h (Json.obj.inj hh))

def Json.decEqList : (a b : List Json) → Decidable (a = b)
  | [], [] => isTrue rfl
  | [], _ :: _ => isFalse (fun h => List.noConfusion h)
  | _ :: _, [] => isFalse (fun h => List.noConfusion h)
  | x :: xs, y :: ys =>
      match Json.decEq x y, Json.decEqList xs ys with
      | isTrue h1, isTrue h2 => isTrue (by rw [h1, h2])
      | isFalse h1, _ => isFalse (fun h => h1 (List.cons.inj h).1)
      | _, isFalse h2 => isFalse (fun h => h2 (List.cons.inj h).2)

def Json.decEqFields : (a b : List (String × Json)) → Decidable (a = b)
  | [], [] => isTrue rfl
  | [], _ :: _ => isFalse (fun h => List.noConfusion h)
  | _ :: _, [] => isFalse (fun h => List.noConfusion h)
  | (k, v) :: as, (k', v') :: bs =>
      match String.decEq k k', Json.decEq v v', Json.decEqFields as bs with
      | isTrue h1, isTrue h2, isTrue h3 => isTrue (by rw [h1, h2, h3])
      | isFalse h1, _, _ =>
          isFalse (fun h => h1 (congrArg Prod.fst (List.cons.inj h).1))
      | _, isFalse h2, _ =>
          isFalse (fun h => h2 (congrArg Prod.snd (List.cons.inj h).1))
      | _, _, isFalse h3 => isFalse (fun h => h3 (List.cons.inj h).2)

end

instance : DecidableEq Json := Json.decEq

namespace Json

/-- JS property read `j[k]` on an object: the value of the first field named
`k`, if any.  Reading a property of an array or primitive yields `undefined`,
modelled as `none`. -/
def getField : Json → String → Option Json
  | obj fields, k => (fields.find? (fun p => p.1 = k)).map (fun p => p.2)
  | _, _ => none

/-- JS truthiness: `null`, `false`, `0` and `""` are falsy; every other value
(including empty arrays and objects) is truthy. -/
def truthy : Json → Bool
  | null => false
  | bool b => b
  | num n => n != 0
  | str s => s != ""
  | arr _ => true
  | obj _ => true

/-- JS `"k" in j`: the object has a field named `k`. -/
def hasField (j : Json) (k : String) : Bool :=
  (j.getField k).isSome

/-- Read a field expected to be a string (the TS code casts such fields with
`as string`); non-string values yield `none`. -/
def getStr (j : Json) (k : String) : Option String :=
  match j.getField k with
  | some (str s) => some s
  | _ => none

end Json

/-- Read a field and apply JS truthiness, as in a `j.k || fallback` chain:
a falsy value behaves like an absent one. -/
def jsTruthyField (j : Json) (k : String) : Option Json :=
  match j.getField k with
  | some v => if v.truthy then some v else none
  | none => none

/-! ## Incremental Text Accumulator

`ChatInterface.tsx`, `processUpdate` (lines 404-436): the per-message
accumulation rule applied to each non-null, non-empty extracted chunk text.
The same rule is used verbatim for summarization streaming (lines 336-350).
-/

/-- Models JS `s.startsWith(pre)`: `pre` is a prefix of `s`. -/
def jsStartsWith (s pre : String) : Bool :=
  pre.data.isPrefixOf s.data

/-- The accumulation step of `processUpdate` (ChatInterface.tsx lines
405-421): given the current accumulated text for the message id (`""` when
none exists yet) and the extracted chunk text, produce the updated
accumulated text.  The UI is re-rendered only when the result differs from
the previous value (line 424). -/
def accumulateContent (currentAccumulated chunkText : String) : String :=
  if currentAccumulated = "" then chunkText
  else if jsStartsWith chunkText currentAccumulated = true ∧
      currentAccumulated.length < chunkText.length then chunkText
  else if chunkText = currentAccumulated then currentAccumulated
  else currentAccumulated ++ chunkText

/-! ## Association-list model of JS `Map` -/

/-- JS `Map.get`. -/
def mapGet {α : Type} : List (String × α) → String → Option α
  | [], _ => none
  | p :: rest, k => if p.1 = k then some p.2 else mapGet rest k

/-- JS `Map.set`: replaces the value at an existing key in place, else
appends (insertion order). -/
def mapSet {α : Type} : List (String × α) → String → α → List (String × α)
  | [], k, v => [(k, v)]
  | p :: rest, k, v => if p.1 = k then (k, v) :: rest else p :: mapSet rest k v

/-! ## Statistics aggregate (`StatisticsContext.tsx`) -/

structure TokenStats where
  input : Nat
  output : Nat
  total : Nat
deriving DecidableEq, Repr

/-- The `Statistics` state of `StatisticsContext.tsx` (lines 155-164). -/
structure Statistics where
  toolCalls : List (String × Nat)
  modelCalls : Nat
  tokens : TokenStats
  contextWindowSize : Nat
deriving DecidableEq, Repr

/-- `resetStatistics` (StatisticsContext.tsx lines 226-237), also the initial
provider state. -/
def resetStatistics : Statistics :=
  { toolCalls := [], modelCalls := 0
    tokens := { input := 0, output := 0, total := 0 }, contextWindowSize := 0 }

/-- `recordToolCall` (StatisticsContext.tsx lines 189-199). -/
def recordToolCall (toolName : String) (prev : Statistics) : Statistics :=
  let currentCount := (mapGet prev.toolCalls toolName).getD 0
  { prev with toolCalls := mapSet prev.toolCalls toolName (currentCount + 1) }

/-- `recordModelCall` (StatisticsContext.tsx lines 201-206). -/
def recordModelCall (prev : Statistics) : Statistics :=
  { prev with modelCalls := prev.modelCalls + 1 }

/-- `recordTokens` (StatisticsContext.tsx lines 208-217). -/
def recordTokens (input output total : Nat) (prev : Statistics) : Statistics :=
  { prev with tokens :=
      { input := prev.tokens.input + input
        output := prev.tokens.output + output
        total := prev.tokens.total + total } }

/-- `recordContextWindowSize` (StatisticsContext.tsx lines 219-224):
`Math.max(prev.contextWindowSize, size)`. -/
def recordContextWindowSize (size : Nat) (prev : Statistics) : Statistics :=
  { prev with contextWindowSize := max prev.contextWindowSize size }

/-! ## Per-id deduplication of tool-call statistics

`ChatInterface.tsx`, `model_request` callback (lines 512-525): each tool call
found in a `model_request` event is recorded into the statistics only if its
id is not in `processedToolCallIdsRef`; the id is then added to the set.  The
events' payload messages are modelled as the `Json` values of
`data.model_request.messages`. -/

structure ModelRequestTrackState where
  processedToolCallIds : List String
  stats : Statistics
deriving DecidableEq

def initialTrackState : ModelRequestTrackState :=
  { processedToolCallIds := [], stats := resetStatistics }

/-- Lines 516-523: one element of a message's `tool_calls` array.  The TS
guard requires the `id` and `name` fields to be present (they are strings per
the `ToolCall` type). -/
def trackToolCall (st : ModelRequestTrackState) (toolCall : Json) :
    ModelRequestTrackState :=
  match toolCall.getStr "id", toolCall.getStr "name" with
  | some toolCallId, some name =>
      if st.processedToolCallIds.contains toolCallId then st
      else { processedToolCallIds := st.processedToolCallIds ++ [toolCallId]
             stats := recordToolCall name st.stats }
  | _, _ => st

/-- Lines 513-515: `msgAny.tool_calls || message.kwargs?.tool_calls`, then
the `Array.isArray` guard. -/
def messageToolCalls (message : Json) : List Json :=
  let toolCalls : Option Json :=
    match message.getField "tool_calls" with
    | some v =>
        if v.truthy then some v
        else (message.getField "kwargs").bind (fun kw => kw.getField "tool_calls")
    | none => (message.getField "kwargs").bind (fun kw => kw.getField "tool_calls")
  match toolCalls with
  | some (.arr xs) => xs
  | _ => []

/-- The tool-call tracking performed for one `model_request` event. -/
def trackModelRequestEvent (st : ModelRequestTrackState) (messages : List Json) :
    ModelRequestTrackState :=
  messages.foldl (fun s msg => (messageToolCalls msg).foldl trackToolCall s) st

/-- Tool-call tracking across a whole session (the ref is only cleared on
scenario change). -/
def runModelRequestEvents (events : List (List Json)) : ModelRequestTrackState :=
  events.foldl trackModelRequestEvent initialTrackState

/-- Total of all per-tool invocation counters. -/
def totalToolCallCount (s : Statistics) : Nat :=
  (s.toolCalls.map Prod.snd).sum

/-- A tool call whose id (when its id and name are both present) is already in
the processed-id set. -/
def toolCallSeen (st : ModelRequestTrackState) (tc : Json) : Prop :=
  ∀ id name, tc.getStr "id" = some id → tc.getStr "name" = some name →
    id ∈ st.processedToolCallIds

/-! ## Tool-Call Lifecycle Tracker

`ChatInterface.tsx`: `ToolCallState` (ToolCall.tsx lines 3-8, with the
`errored` flag set by the error callbacks), `updateToolCallWithMessage`
(lines 221-261), `updateToolCallArgs` (lines 122-152) and the error
callback's marking of pending tool calls (lines 574-592).  The tool-call
object and the tool message are kept as raw `Json` values, as in the
source. -/

structure ToolCallState where
  toolCall : Json
  toolMessage : Option Json := none
  aiMessageId : Option String := none
  timestamp : Nat := 0
  errored : Bool := false
deriving DecidableEq

/-- Lines 223-225: `toolMsg.tool_call_id || toolMsg.kwargs?.tool_call_id`,
followed by the `if (!toolCallId) return` truthiness guard (ids are strings
per the `ToolMessageData` type). -/
def toolMessageCallId (toolMsg : Json) : Option String :=
  let candidate : Option Json :=
    match jsTruthyField toolMsg "tool_call_id" with
    | some v => some v
    | none => (toolMsg.getField "kwargs").bind (fun kw => kw.getField "tool_call_id")
  match candidate with
  | some (.str s) => if s = "" then none else some s
  | _ => none

/-- Lines 236-238: `toolMsg.name || toolMsg.kwargs?.name || "unknown"`
(names are strings per the `ToolMessageData` type). -/
def toolMessageName (toolMsg : Json) : String :=
  match jsTruthyField toolMsg "name" with
  | some (.str s) => s
  | _ =>
      match (toolMsg.getField "kwargs").bind (fun kw => jsTruthyField kw "name") with
      | some (.str s) => s
      | _ => "unknown"

/-- `updateToolCallWithMessage` (ChatInterface.tsx lines 221-261): attach a
tool result to the existing entry for its `toolCallId`, or synthesize a
placeholder entry when the call was never sighted. -/
def updateToolCallWithMessage (toolMsg : Json) (currentAssistantId : String)
    (now : Nat) (prev : List (String × ToolCallState)) :
    List (String × ToolCallState) :=
  match toolMessageCallId toolMsg with
  | none => prev
  | some toolCallId =>
      let name := toolMessageName toolMsg
      match mapGet prev toolCallId with
      | some existing =>
          mapSet prev toolCallId { existing with toolMessage := some toolMsg }
      | none =>
          mapSet prev toolCallId
            { toolCall := Json.obj
                [("id", .str toolCallId), ("name", .str name),
                 ("args", .obj []), ("type", .str "tool_call")]
              toolMessage := some toolMsg
              aiMessageId := some currentAssistantId
              timestamp := now
              errored := false }

/-- Lines 124-139 of `updateToolCallArgs`: the first non-empty tool-call list
among the event's messages (native `tool_calls` checked before
`kwargs.tool_calls`, per message). -/
def firstToolCallList (messages : List Json) : List Json :=
  match messages with
  | [] => []
  | msg :: rest =>
      match msg.getField "tool_calls" with
      | some (.arr (x :: xs)) => x :: xs
      | _ =>
          match (msg.getField "kwargs").bind (fun kw => kw.getField "tool_calls") with
          | some (.arr (x :: xs)) => x :: xs
          | _ => firstToolCallList rest

/-- `updateToolCallArgs` (ChatInterface.tsx lines 122-152): replace the
stored tool-call object wholesale for every entry whose id appears in the
event's tool-call list; entries not mentioned are kept as they are. -/
def updateToolCallArgs (messages : List Json)
    (prev : List (String × ToolCallState)) : List (String × ToolCallState) :=
  let tc := firstToolCallList messages
  prev.map (fun p =>
    match tc.find? (fun t => t.getField "id" = some (.str p.1)) with
    | some updated => (p.1, { p.2 with toolCall := updated })
    | none => p)

/-- The error callback's tool-call marking (ChatInterface.tsx lines 574-592):
mark every call owned by the current assistant message that has no result as
errored; return the previous state object untouched when there is nothing to
mark. -/
def markPendingToolCallsErrored (currentAssistantId : String)
    (prev : List (String × ToolCallState)) : List (String × ToolCallState) :=
  let needsUpdate := prev.any (fun p =>
    decide (p.2.aiMessageId = some currentAssistantId) &&
    decide (p.2.toolMessage = none) && !p.2.errored)
  if needsUpdate then
    prev.map (fun p =>
      if p.2.aiMessageId = some currentAssistantId ∧ p.2.toolMessage = none
      then (p.1, { p.2 with errored := true }) else p)
  else prev

/-- Example input for C3: a tool-result message carrying its own name. -/
def toolMsgNamed : Json :=
  Json.obj [("tool_call_id", .str "tc1"), ("name", .str "search"),
    ("status", .str "success"), ("content", .str "ok")]

/-- Example input for C3: a tool-result message with no name in either
format. -/
def toolMsgNoName : Json :=
  Json.obj [("tool_call_id", .str "tc2"),
    ("status", .str "error"), ("content", .str "boom")]

/-- Example input for C3: a `model_request` message whose tool-call list
mentions only the id `"tc9"`. -/
def modelRequestMsgOther : Json :=
  Json.obj [("tool_calls", .arr [Json.obj [("id", .str "tc9"),
    ("name", .str "lookup"), ("args", .obj [])]])]

/-- Example input for C8: one pending tool call and one completed tool call,
both owned by assistant message `"m1"`. -/
def toolCallsEx : List (String × ToolCallState) :=
  [("a", { toolCall := Json.obj [("id", .str "a")]
           aiMessageId := some "m1", timestamp := 1 }),
   ("b", { toolCall := Json.obj [("id", .str "b")]
           toolMessage := some (Json.obj [("status", .str "success")])
           aiMessageId := some "m1", timestamp := 2 })]

/-- Example input for C8: as `toolCallsEx`, but the pending call is already
errored. -/
def toolCallsErroredEx : List (String × ToolCallState) :=
  [("a", { toolCall := Json.obj [("id", .str "a")]
           aiMessageId := some "m1", timestamp := 1, errored := true }),
   ("b", { toolCall := Json.obj [("id", .str "b")]
           toolMessage := some (Json.obj [("status", .str "success")])
           aiMessageId := some "m1", timestamp := 2 })]

/-! ## Event Normalizer (`ChatInterface.tsx`, `readStream` helpers)

`transformLangGraphEvent` (lines 904-1052), `determineEventTypeFromPayload`
(lines 1055-1095) and `handleEvent` (lines 1098-1126).  Event kinds are the
label strings themselves, as in the TS source. -/

/-- JS `payload && typeof payload === "object"`: a non-null object (arrays
included). -/
def isObjectLike : Json → Bool
  | .arr _ => true
  | .obj _ => true
  | _ => false

/-- Modelled from the spec: the canonical event-label list `EVENT_TYPES` of
`src/app/constants.ts`, a file absent from the source snapshot; spec §6
names the recognized canonical labels `update`, `tools`, `model_request`,
`agent_state`, `agent`, `interrupt`, `end`, `error`. -/
def EVENT_TYPES : List String :=
  ["update", "tools", "model_request", "agent_state", "agent", "interrupt",
   "end", "error"]

/-- `determineEventTypeFromPayload` (ChatInterface.tsx lines 1055-1095). -/
def determineEventTypeFromPayload (payload : Json) : String :=
  match payload with
  | .obj fields =>
      let keys := fields.map Prod.fst
      if keys.contains "messages" &&
          (match (Json.obj fields).getField "messages" with
           | some (.arr _) => true
           | _ => false) then "agent_state"
      else if keys.length == 1 && keys.head? == some "model_request" &&
          (((Json.obj fields).getField "model_request").elim false Json.truthy) then
        "model_request"
      else if keys.length == 1 && keys.head? == some "tools" &&
          (((Json.obj fields).getField "tools").elim false Json.truthy) then
        "tools"
      else "update"
  | .arr elems =>
      match elems with
      | [first, second] =>
          if first.hasField "lc" && second.hasField "langgraph_node" then
            "model_request"
          else "update"
      | _ => "update"
  | _ => "update"

/-- The canonical interrupt payload rebuilt from an interrupt entry's `value`
when `value.actionRequests` is truthy (lines 915-923, 942-950, 971-979):
each action request is projected to `{name, args, description}` and
`reviewConfigs` defaults to `[]`. -/
def extractInterruptValue (value : Json) : Option Json :=
  match jsTruthyField value "actionRequests" with
  | some (.arr ars) =>
      some (Json.obj
        [("actionRequests", Json.arr (ars.map (fun ar => Json.obj
            [("name", (ar.getField "name").getD .null),
             ("args", (ar.getField "args").getD .null),
             ("description", (ar.getField "description").getD .null)]))),
         ("reviewConfigs", (jsTruthyField value "reviewConfigs").getD (Json.arr []))])
  | _ => none

/-- The `interrupt` label branch (lines 909-932): unwrap the first interrupt
entry and extract its `value` when possible. -/
def transformInterrupt (payload : Json) : Json :=
  match payload with
  | .arr (interruptValue :: _) =>
      match interruptValue.getField "value" with
      | some value =>
          match extractInterruptValue value with
          | some d => d
          | none => interruptValue
      | none => interruptValue
  | _ => payload

/-- The `__interrupt__` marker handling shared by the `values` and `updates`
branches (lines 937-952, 963-981): extract from the first entry's `value`,
falling back to the whole marker value. -/
def transformInterruptMarker (intr : Json) : Json :=
  match intr with
  | .arr (first :: _) =>
      match (first.getField "value").bind extractInterruptValue with
      | some d => d
      | none => intr
  | _ => intr

/-- The `values` / `updates` branches (lines 933-987): an `__interrupt__`
marker turns the event into an interrupt, otherwise the payload shape decides
the kind. -/
def transformWithInterruptMarker (payload : Json) : String × Json :=
  match payload.getField "__interrupt__" with
  | some intr =>
      if intr.truthy then ("interrupt", transformInterruptMarker intr)
      else (determineEventTypeFromPayload payload, payload)
  | none => (determineEventTypeFromPayload payload, payload)

/-- The AI-message filter of the `messages` branch (lines 1009-1024). -/
def isAiLikeMessage (msg : Json) : Bool :=
  if !isObjectLike msg then false
  else if msg.getField "type" = some (.str "ai") then true
  else
    decide (msg.getField "lc" = some (.num 1)) &&
    (match msg.getField "id" with
     | some (.arr ids) =>
         decide (ids.get? 0 = some (.str "langchain_core")) &&
         decide (ids.get? 1 = some (.str "messages")) &&
         (decide (ids.get? 2 = some (.str "AIMessageChunk")) ||
          decide (ids.get? 2 = some (.str "AIMessage")))
     | _ => false)

/-- The single-message sub-branch of the `messages` branch (lines
1031-1041): a leading native message is rewrapped as `[message, metadata]`
with a synthetic `{langgraph_node: "unknown"}` metadata when none is
present. -/
def transformMessagesSingle (elems : List Json) : String × Json :=
  let payload := Json.arr elems
  match elems with
  | firstMsg :: rest =>
      if isObjectLike firstMsg then
        if firstMsg.getField "type" = some (.str "ai") ∨
           firstMsg.getField "type" = some (.str "tool") then
          let metadata := match rest.head? with
            | some second =>
                if second.hasField "langgraph_node" then second
                else Json.obj [("langgraph_node", Json.str "unknown")]
            | none => Json.obj [("langgraph_node", Json.str "unknown")]
          ("update", Json.arr [firstMsg, metadata])
        else ("update", payload)
      else ("update", payload)
  | [] => ("update", payload)

/-- The `messages` branch of `transformLangGraphEvent` (lines 988-1042). -/
def transformMessagesEvent (elems : List Json) : String × Json :=
  match elems with
  | [firstItem, secondItem] =>
      if isObjectLike firstItem && isObjectLike secondItem then
        if secondItem.hasField "langgraph_node" then
          if firstItem.getField "type" = some (.str "ai") ∨
             firstItem.getField "type" = some (.str "tool") then
            ("update", Json.arr [firstItem, secondItem])
          else if firstItem.getField "lc" = some (.num 1) then
            ("model_request", Json.obj [("model_request", Json.obj
              [("messages", Json.arr [firstItem]),
               ("_privateState", Json.obj [])])])
          else ("update", Json.arr [firstItem, secondItem])
        else
          let aiMessages := [firstItem, secondItem].filter isAiLikeMessage
          if aiMessages.isEmpty then
            ("update", Json.arr [firstItem, secondItem])
          else ("agent", Json.obj [("messages", Json.arr aiMessages)])
      else transformMessagesSingle [firstItem, secondItem]
  | other => transformMessagesSingle other

/-- `transformLangGraphEvent` (ChatInterface.tsx lines 904-1052). -/
def transformLangGraphEvent (langGraphEventType : String) (payload : Json) :
    String × Json :=
  match langGraphEventType with
  | "interrupt" => ("interrupt", transformInterrupt payload)
  | "values" =>
      if isObjectLike payload then transformWithInterruptMarker payload
      else ("update", payload)
  | "updates" =>
      if isObjectLike payload then transformWithInterruptMarker payload
      else ("update", payload)
  | "messages" =>
      match payload with
      | .arr elems => transformMessagesEvent elems
      | _ =>
          if isObjectLike payload then
            (determineEventTypeFromPayload payload, payload)
          else ("update", payload)
  | _ =>
      if isObjectLike payload then (determineEventTypeFromPayload payload, payload)
      else ("update", payload)

/-- The error-message extraction of `handleEvent` (lines 1101-1112):
`message` preferred over `error`, then a hardcoded fallback. -/
def extractErrorMessage (eventData : Json) : String :=
  match eventData with
  | .str s => s
  | .arr _ | .obj _ =>
      match jsTruthyField eventData "message" with
      | some (.str s) => s
      | _ =>
          match jsTruthyField eventData "error" with
          | some (.str s) => s
          | _ => "Unknown error occurred"
  | _ => "Unknown error occurred"

/-- A callback invocation observable at the `readStream` boundary. -/
inductive CallbackCall where
  | update (data : Json)
  | tools (data : Json)
  | agent_state (data : Json)
  | model_request (data : Json)
  | interrupt (data : Json)
  | agent (data : Json)
  | endOfStream
  | errorCall (message : String)
deriving DecidableEq

/-- `handleEvent` (ChatInterface.tsx lines 1098-1126): dispatch one
normalized event to its callback (an unknown kind dispatches nothing). -/
def handleEvent (eventType : String) (eventData : Json) : List CallbackCall :=
  if eventType = "end" then [CallbackCall.endOfStream]
  else if eventType = "error" then
    [CallbackCall.errorCall (extractErrorMessage eventData)]
  else if eventType = "agent_state" then [CallbackCall.agent_state eventData]
  else if eventType = "model_request" then [CallbackCall.model_request eventData]
  else if eventType = "tools" then [CallbackCall.tools eventData]
  else if eventType = "interrupt" then [CallbackCall.interrupt eventData]
  else if eventType = "update" then [CallbackCall.update eventData]
  else if eventType = "agent" then [CallbackCall.agent eventData]
  else []

/-! ## Session Transport Reader (`readStream`, lines 1128-1210) -/

/-- One already-decoded line of the SSE stream.  `TextDecoder` and the
line-buffer splitting (lines 1150-1152) are the platform boundary; a
`data:` line carries its parsed JSON payload, or the parse-failure message
when `JSON.parse` threw (lines 1184-1192). -/
inductive RawLine where
  | blank
  | eventLine (label : String)
  | dataLine (payload : Json)
  | badDataLine (parseErrorMessage : String)
  | otherLine
deriving DecidableEq

structure StreamState where
  currentEventType : Option String := none
  currentData : Option Json := none
  calls : List CallbackCall := []
deriving DecidableEq

/-- The pending-event processing shared by the blank-line case, the
stream-close case and the trailing check (lines 1131-1143, 1156-1171,
1197-1209): transform the event when its label is not canonical, store the
transformed label and data back, and dispatch.  Only the blank-line caller
resets the stored label and data afterwards. -/
def processPending (st : StreamState) : StreamState :=
  match st.currentEventType, st.currentData with
  | some t, some d =>
      let td := if EVENT_TYPES.contains t then (t, d) else transformLangGraphEvent t d
      { currentEventType := some td.1, currentData := some td.2
        calls := st.calls ++ handleEvent td.1 td.2 }
  | _, _ => st

/-- The per-line processing of `readStream` (lines 1154-1194). -/
def processLine (st : StreamState) (l : RawLine) : StreamState :=
  match l with
  | .blank =>
      match st.currentEventType, st.currentData with
      | some _, some _ =>
          let st' := processPending st
          { st' with currentEventType := none, currentData := none }
      | _, _ => st
  | .eventLine label => { st with currentEventType := some label }
  | .dataLine payload => { st with currentData := some payload }
  | .badDataLine msg => { st with calls := st.calls ++ [CallbackCall.errorCall msg] }
  | .otherLine => st

/-- `readStream` (ChatInterface.tsx lines 1128-1210) at line granularity: the
read loop processes each line; at stream close the pending event is
processed (lines 1131-1143), the `end` callback fires (line 1146), and the
check after the loop (lines 1197-1209) processes the still-stored pending
event a second time. -/
def readStream (lines : List RawLine) : List CallbackCall :=
  let stL := lines.foldl processLine {}
  let st1 := processPending stL
  let st2 := { st1 with calls := st1.calls ++ [CallbackCall.endOfStream] }
  let st3 := processPending st2
  st3.calls

/-- The newer framing variant: each `event:`+`data:` pair is terminated by a
blank line. -/
def newerVariantLines (label : String) (payloads : List Json) : List RawLine :=
  payloads.flatMap (fun p => [RawLine.eventLine label, RawLine.dataLine p,
    RawLine.blank])

/-- The older framing variant: consecutive `event:`+`data:` pairs with no
blank-line delimiter between frames. -/
def olderVariantLines (label : String) (payloads : List Json) : List RawLine :=
  payloads.flatMap (fun p => [RawLine.eventLine label, RawLine.dataLine p])

/-! ## C2 example shapes: the two historical assistant-delta encodings -/

/-- The field extraction applied by `processUpdate` to an assistant chunk:
`extractIncrementalTextFromChunk` (ChatInterface.tsx lines 1215-1252). -/
def extractIncrementalTextFromChunk (msg : Json) : Option String :=
  let content : Option Json :=
    match msg.getField "content" with
    | some v =>
        if v.truthy then some v
        else (msg.getField "kwargs").bind (fun kw => kw.getField "content")
    | none => (msg.getField "kwargs").bind (fun kw => kw.getField "content")
  match content with
  | some c =>
      if !c.truthy then none
      else
        match c with
        | .str s => some s
        | .arr items =>
            let text := items.foldl (fun text item =>
              if item.getField "type" = some (.str "text") then
                match item.getField "text" with
                | some (.str s) => text ++ s
                | _ => text
              else text) ""
            if text = "" then none else some text
        | _ => none
  | none => none

/-- The message-id extraction of `processUpdate` (line 307):
`typeof msg.id === "string" ? msg.id : msg.kwargs?.id`. -/
def chunkMessageId (msg : Json) : Option String :=
  match msg.getField "id" with
  | some (.str s) => some s
  | _ =>
      match (msg.getField "kwargs").bind (fun kw => kw.getField "id") with
      | some (.str s) => some s
      | _ => none

/-- The tool-call extraction of `processUpdate` (lines 441-443):
`msg.tool_calls || msg.kwargs?.tool_calls || []`. -/
def chunkToolCalls (msg : Json) : Json :=
  match jsTruthyField msg "tool_calls" with
  | some v => v
  | none =>
      match (msg.getField "kwargs").bind (fun kw => jsTruthyField kw "tool_calls") with
      | some v => v
      | none => Json.arr []

/-- `isAIMessageChunk` (ChatInterface.tsx lines 22-38). -/
def isAIMessageChunk (chunk : Json) : Bool :=
  if !isObjectLike chunk then false
  else if chunk.getField "type" = some (.str "ai") then true
  else
    chunk.hasField "lc" && chunk.hasField "kwargs" &&
    (match chunk.getField "id" with
     | some (.arr ids) => decide (ids.get? 2 = some (.str "AIMessageChunk"))
     | _ => false)

/-- A native flat assistant delta (`type: "ai"`) carrying the given content,
id and tool calls. -/
def nativeChunk (content msgId : String) (toolCalls : List Json) : Json :=
  Json.obj [("type", .str "ai"), ("content", .str content), ("id", .str msgId),
    ("tool_calls", .arr toolCalls)]

/-- The same logical delta in the legacy nested representation: `lc: 1`, the
type-tag array ending in `"AIMessageChunk"`, and the fields inside
`kwargs`. -/
def legacyChunk (content msgId : String) (toolCalls : List Json) : Json :=
  Json.obj [("lc", .num 1), ("type", .str "constructor"),
    ("id", .arr [.str "langchain_core", .str "messages", .str "AIMessageChunk"]),
    ("kwargs", Json.obj [("content", .str content), ("id", .str msgId),
      ("tool_calls", .arr toolCalls)])]

/-- Stream metadata carrying a `langgraph_node`, as attached to every
`messages` tuple. -/
def chunkMetadata : Json := Json.obj [("langgraph_node", .str "model")]

/-! ## Interrupt/Approval Coordinator (`InterruptBubble.tsx`) -/

structure ActionRequest where
  name : String
  args : Json
  description : Option String := none
deriving DecidableEq

structure ReviewConfig where
  actionName : String
  allowedDecisions : Option (List String) := none
deriving DecidableEq

/-- The interrupt payload consumed by `InterruptBubble`
(`interruptData`): `action_requests` plus optional `review_configs`. -/
structure InterruptEventData where
  action_requests : List ActionRequest
  review_configs : Option (List ReviewConfig) := none
deriving DecidableEq

/-- InterruptBubble.tsx lines 25-33: the bubble renders nothing without a
first action request; the review config is found by the first action's name,
and `allowedDecisions` defaults to `["approve", "reject"]` when the config
or the field is absent. -/
def allowedDecisionsFor (d : InterruptEventData) : List String :=
  match d.action_requests.head? with
  | none => []
  | some actionRequest =>
      match (d.review_configs.getD []).find?
          (fun config => config.actionName = actionRequest.name) with
      | some reviewConfig => reviewConfig.allowedDecisions.getD ["approve", "reject"]
      | none => ["approve", "reject"]

/-- InterruptBubble.tsx lines 204-231: the resolution buttons offered in the
default view, in render order (Reject, Edit, Approve), each gated on
membership in `allowedDecisions`. -/
def offeredDecisions (d : InterruptEventData) : List String :=
  match d.action_requests.head? with
  | none => []
  | some _ =>
      let allowed := allowedDecisionsFor d
      (if allowed.contains "reject" then ["reject"] else []) ++
      (if allowed.contains "edit" then ["edit"] else []) ++
      (if allowed.contains "approve" then ["approve"] else [])

/-- Example interrupt for C5/C6: a `send_email` action whose review config
advertises only approve and reject. -/
def interruptApproveRejectEx : InterruptEventData :=
  { action_requests := [{ name := "send_email", args := Json.obj []
                          description := some "Send an email" }]
    review_configs := some [{ actionName := "send_email"
                              allowedDecisions := some ["approve", "reject"] }] }

/-! ## Interrupt resolution round trip (`ChatInterface.tsx`)

`handleInterruptApprove` (lines 657-668) and the request-issuing part of
`handleSend` (lines 154-207), modelled as a function from client state to the
updated state and the POST request issued, if any. -/

/-- A decision object built by the interrupt resolution handlers (lines
660-696). -/
structure Decision where
  type : String
  message : Option String := none
  editedAction : Option (String × Json) := none
deriving DecidableEq

structure InterruptResponse where
  decisions : List Decision
deriving DecidableEq

mutual

/-- `JSON.stringify` for the payloads serialized by the client (no string
escaping is needed for the serialized decision payloads, which contain no
special characters). -/
def Json.stringify : Json → String
  | .null => "null"
  | .bool true => "true"
  | .bool false => "false"
  | .num n => toString n
  | .str s => "\"" ++ s ++ "\""
  | .arr xs => "[" ++ Json.stringifyList xs ++ "]"
  | .obj fs => "\x7b" ++ Json.stringifyFields fs ++ "\x7d"

def Json.stringifyList : List Json → String
  | [] => ""
  | [x] => Json.stringify x
  | x :: xs => Json.stringify x ++ "," ++ Json.stringifyList xs

def Json.stringifyFields : List (String × Json) → String
  | [] => ""
  | [(k, v)] => "\"" ++ k ++ "\":" ++ Json.stringify v
  | (k, v) :: fs =>
      "\"" ++ k ++ "\":" ++ Json.stringify v ++ "," ++ Json.stringifyFields fs

end

/-- The JSON value of one decision object, with the optional fields present
exactly when set (lines 660-696). -/
def encodeDecision (d : Decision) : Json :=
  Json.obj ([("type", Json.str d.type)] ++
    (match d.message with
     | some m => [("message", Json.str m)]
     | none => []) ++
    (match d.editedAction with
     | some (n, args) =>
         [("editedAction", Json.obj [("name", Json.str n), ("args", args)])]
     | none => []))

def encodeInterruptResponse (r : InterruptResponse) : Json :=
  Json.obj [("decisions", Json.arr (r.decisions.map encodeDecision))]

/-- The request body assembled by `handleSend` (lines 196-207);
`interruptResponse` carries the JSON-encoded decisions and is absent for a
plain user message. -/
structure PostRequest where
  endpoint : String
  message : String
  apiKey : String
  threadId : String
  interruptResponse : Option String := none
deriving DecidableEq

/-- The client state consulted and updated by `handleSend` up to the point
the POST request is issued. -/
structure ClientState where
  inputValue : String
  isLoading : Bool
  interruptData : Option InterruptEventData := none
  currentThreadId : Option String := none
deriving DecidableEq

/-- The `API_ENDPOINTS` lookup with its `/api/basic` default (lines 59-67
and 187). -/
def apiEndpoint (selectedScenario : String) : String :=
  (mapGet [("human-in-the-loop", "/api/hitl"),
    ("summarization", "/api/summarization"),
    ("model-call-limits", "/api/model-call-limits"),
    ("tool-call-limits", "/api/tool-call-limits"),
    ("todo-list", "/api/todo-list"),
    ("context-editing", "/api/context-editing"),
    ("mcp", "/api/mcp")] selectedScenario).getD "/api/basic"

/-- Models JS `s.trim()`: strip leading and trailing whitespace. -/
def jsTrim (s : String) : String :=
  String.mk ((s.data.dropWhile Char.isWhitespace).reverse.dropWhile
    Char.isWhitespace).reverse

/-- The request-issuing part of `handleSend` (ChatInterface.tsx lines
154-207): guards, the `messageOverride || inputValue` fallback, the user
message/input reset, thread-id assignment, and the POST body.  `now` stands
for `Date.now()`. -/
def handleSend (messageOverride : Option String)
    (interruptResponse : Option InterruptResponse)
    (selectedScenario : Option String) (apiKey : String) (now : Nat)
    (st : ClientState) : ClientState × Option PostRequest :=
  let messageToSend := match messageOverride with
    | some s => if s = "" then st.inputValue else s
    | none => st.inputValue
  if (jsTrim messageToSend = "" ∧ interruptResponse = none) ∨
      selectedScenario = none ∨ st.isLoading = true then
    (st, none)
  else if jsTrim apiKey = "" then
    (st, none)
  else
    let st1 := if interruptResponse = none ∧ jsTrim messageToSend ≠ "" then
        { st with inputValue := "" } else st
    let threadId := st1.currentThreadId.getD ("thread-" ++ toString now)
    let st2 := { st1 with currentThreadId := some threadId }
    (st2, some
      { endpoint := (selectedScenario.map apiEndpoint).getD "/api/basic"
        message := messageToSend
        apiKey := apiKey
        threadId := threadId
        interruptResponse := interruptResponse.map
          (fun r => Json.stringify (encodeInterruptResponse r)) })

/-- `handleInterruptApprove` (ChatInterface.tsx lines 657-668): clear the
pending interrupt and resume via `handleSend("", {decisions:
[{type: "approve"}]})`. -/
def handleInterruptApprove (selectedScenario : Option String) (apiKey : String)
    (now : Nat) (st : ClientState) : ClientState × Option PostRequest :=
  match st.interruptData with
  | none => (st, none)
  | some _ =>
      handleSend (some "") (some { decisions := [{ type := "approve" }] })
        selectedScenario apiKey now { st with interruptData := none }

/-- Example client state for C6: a pending interrupt with the text
`"draft"` sitting in the input box. -/
def interruptStateDraft : ClientState :=
  { inputValue := "draft", isLoading := false
    interruptData := some interruptApproveRejectEx
    currentThreadId := some "thread-1" }

/-- Example client state for C6: a pending interrupt with an empty input
box. -/
def interruptStateEmptyInput : ClientState :=
  { inputValue := "", isLoading := false
    interruptData := some interruptApproveRejectEx
    currentThreadId := some "thread-1" }

/-! # Theorems -/

/-! Auxiliary facts about `List.isPrefixOf` used to reason about the
accumulator. -/

theorem isPrefixOf_length_le {l₁ l₂ : List Char} (h : l₁.isPrefixOf l₂ = true) :
    l₁.length ≤ l₂.length := by
  induction l₁ generalizing l₂ with
  | nil => simp
  | cons a as ih =>
    cases l₂ with
    | nil => simp [List.isPrefixOf] at h
    | cons b bs =>
      simp only [List.isPrefixOf, Bool.and_eq_true] at h
      simpa using ih h.2

theorem eq_of_isPrefixOf_of_length_le {l₁ l₂ : List Char}
    (h : l₁.isPrefixOf l₂ = true) (hl : l₂.length ≤ l₁.length) : l₁ = l₂ := by
  induction l₁ generalizing l₂ with
  | nil => cases l₂ with
    | nil => rfl
    | cons b bs => simp at hl
  | cons a as ih =>
    cases l₂ with
    | nil => simp [List.isPrefixOf] at h
    | cons b bs =>
      simp only [List.isPrefixOf, Bool.and_eq_true, beq_iff_eq] at h
      simp only [List.length_cons, Nat.add_le_add_iff_right] at hl
      rw [h.1, ih h.2 hl]

theorem isPrefixOf_self (l : List Char) : l.isPrefixOf l = true := by
  induction l with
  | nil => rfl
  | cons a as ih => simp [List.isPrefixOf, ih]

/-- String extensionality via the underlying character list. -/
theorem string_data_eq {s t : String} (h : s.data = t.data) : s = t := by
  cases s
  cases t
  exact congrArg String.mk h

theorem string_length_append (s t : String) :
    (s ++ t).length = s.length + t.length := by
  show (s ++ t).data.length = s.data.length + t.data.length
  rw [String.data_append, List.length_append]

theorem string_length_eq_zero {s : String} (h : s.length = 0) : s = "" := by
  cases s with
  | mk data =>
    cases data with
    | nil => rfl
    | cons a as => simp [String.length] at h

theorem string_append_ne_left {s t : String} (ht : t ≠ "") : s ++ t ≠ s := by
  intro h
  apply ht
  have hl := congrArg String.length h
  rw [string_length_append] at hl
  exact string_length_eq_zero (by omega)

/-- C1: For every message id, on each incoming assistant-output chunk the
Incremental Text Accumulator updates the accumulated text by exactly this
rule: if no prior accumulated text exists for the id, the chunk text becomes
the accumulated text verbatim; else if the chunk text starts with the current
accumulated text and is strictly longer, the chunk text replaces the
accumulated text wholesale; else if the chunk text equals the current
accumulated text, the accumulated text is unchanged; otherwise the chunk
text is appended to the current accumulated text. -/
theorem accumulateContent_spec (acc chunk : String) :
    (acc = "" → accumulateContent acc chunk = chunk) ∧
    (acc ≠ "" → jsStartsWith chunk acc = true → acc.length < chunk.length →
      accumulateContent acc chunk = chunk) ∧
    (acc ≠ "" → chunk = acc → accumulateContent acc chunk = acc) ∧
    (acc ≠ "" → ¬(jsStartsWith chunk acc = true ∧ acc.length < chunk.length) →
      chunk ≠ acc → accumulateContent acc chunk = acc ++ chunk) := by
  refine ⟨fun h => ?_, fun h hp hl => ?_, fun h he => ?_, fun h hn hne => ?_⟩
  · simp [accumulateContent, h]
  · simp [accumulateContent, h, hp, hl]
  · have hnp : ¬(jsStartsWith chunk acc = true ∧ acc.length < chunk.length) := by
      rintro ⟨-, hl⟩
      rw [he] at hl
      omega
    simp [accumulateContent, h, hnp, he]
  · simp [accumulateContent, h, hn, hne]

/-- Witness for C1: the replacement case of P3 (accumulated `"Hello"`, chunk
`"Hello, world"` yields a full replace) and a delta-append case. -/
theorem accumulateContent_spec_witness :
    accumulateContent "Hello" "Hello, world" = "Hello, world" ∧
    accumulateContent "AB" "C" = "ABC" :=
  ⟨(accumulateContent_spec "Hello" "Hello, world").2.1 (by decide) (by decide)
      (by decide),
   (accumulateContent_spec "AB" "C").2.2.2 (by decide) (by decide) (by decide)⟩

/-- Counterexample to C7: feeding the same true-delta chunk text twice in a
row does change the content after the second call — from accumulated `"A"`,
feeding chunk `"B"` twice yields `"AB"` then `"ABB"`. -/
theorem accumulateContent_duplicate_counterexample :
    accumulateContent (accumulateContent "A" "B") "B" ≠ accumulateContent "A" "B" := by
  decide

theorem accumulateContent_self (s : String) : accumulateContent s s = s := by
  by_cases hs : s = ""
  · simp [accumulateContent, hs]
  · have hnp : ¬(jsStartsWith s s = true ∧ s.length < s.length) := by
      rintro ⟨-, hl⟩; omega
    simp [accumulateContent, hs, hnp]

/-- C7 (amended): the accumulated length is non-decreasing after each step;
feeding the same chunk text twice in a row leaves the content unchanged after
the second call when the first feed hit the first-chunk, replacement or
duplicate branch (i.e. whenever the accumulated text was empty or a prefix of
the chunk), but a duplicated true-delta chunk is appended a second time. -/
theorem accumulateContent_monotone_and_dedup (acc chunk : String) :
    acc.length ≤ (accumulateContent acc chunk).length ∧
    ((acc = "" ∨ jsStartsWith chunk acc = true) →
      accumulateContent (accumulateContent acc chunk) chunk =
        accumulateContent acc chunk) ∧
    (acc ≠ "" → jsStartsWith chunk acc = false → chunk ≠ "" →
      accumulateContent (accumulateContent acc chunk) chunk ≠
        accumulateContent acc chunk) := by
  refine ⟨?_, fun h => ?_, fun h1 h2 h3 => ?_⟩
  · by_cases h : acc = ""
    · subst h
      rw [show accumulateContent "" chunk = chunk from by
        simp [accumulateContent]]
      exact Nat.zero_le _
    · by_cases hr : jsStartsWith chunk acc = true ∧ acc.length < chunk.length
      · rw [show accumulateContent acc chunk = chunk from by
          simp [accumulateContent, h, hr.1, hr.2]]
        exact Nat.le_of_lt hr.2
      · by_cases he : chunk = acc
        · rw [show accumulateContent acc chunk = acc from by
            simp [accumulateContent, h, hr, he]]
        · rw [show accumulateContent acc chunk = acc ++ chunk from by
            simp [accumulateContent, h, hr, he], string_length_append]
          exact Nat.le_add_right _ _
  · rcases h with h | h
    · rw [show accumulateContent acc chunk = chunk from by
        simp [accumulateContent, h]]
      exact accumulateContent_self chunk
    · by_cases hl : acc.length < chunk.length
      · by_cases he : acc = ""
        · rw [show accumulateContent acc chunk = chunk from by
            simp [accumulateContent, he]]
          exact accumulateContent_self chunk
        · rw [show accumulateContent acc chunk = chunk from by
            simp [accumulateContent, he, h, hl]]
          exact accumulateContent_self chunk
      · -- a prefix that is not longer is the accumulated text itself
        have hdata : acc.data = chunk.data := by
          refine eq_of_isPrefixOf_of_length_le h ?_
          have := @isPrefixOf_length_le acc.data chunk.data h
          have hle : ¬acc.length < chunk.length := hl
          show chunk.data.length ≤ acc.data.length
          simp only [String.length] at hle
          omega
        have he : chunk = acc := (string_data_eq hdata).symm
        subst he
        rw [accumulateContent_self, accumulateContent_self]
  · have hne : chunk ≠ acc := by
      intro he
      rw [he, jsStartsWith, isPrefixOf_self] at h2
      cases h2
    have hnp : ¬(jsStartsWith chunk acc = true ∧ acc.length < chunk.length) := by
      rintro ⟨hp, -⟩
      rw [h2] at hp
      cases hp
    have hstep : accumulateContent acc chunk = acc ++ chunk := by
      simp [accumulateContent, h1, hnp, hne]
    rw [hstep]
    have hacc : acc ++ chunk ≠ "" := by
      intro h
      apply h3
      have hl := congrArg String.length h
      rw [string_length_append, show ("" : String).length = 0 from rfl] at hl
      exact string_length_eq_zero (by omega)
    have hlen_chunk : 0 < chunk.length := by
      rcases Nat.eq_zero_or_pos chunk.length with hz | hp
      · exact absurd (string_length_eq_zero hz) h3
      · exact hp
    have hlen_acc : 0 < acc.length := by
      rcases Nat.eq_zero_or_pos acc.length with hz | hp
      · exact absurd (string_length_eq_zero hz) h1
      · exact hp
    have hp2 : ¬(jsStartsWith chunk (acc ++ chunk) = true ∧
        (acc ++ chunk).length < chunk.length) := by
      rintro ⟨-, hl⟩
      rw [string_length_append] at hl
      omega
    have hne2 : chunk ≠ acc ++ chunk := by
      intro he
      have hl := congrArg String.length he
      rw [string_length_append] at hl
      omega
    rw [show accumulateContent (acc ++ chunk) chunk = (acc ++ chunk) ++ chunk from by
      simp [accumulateContent, hacc, hp2, hne2]]
    exact string_append_ne_left h3

/-- Witness for C7 (amended): dedup applies after a replacement-style feed
(P3's `"Hello"` / `"Hello, world"` pair), and a duplicated delta chunk is
re-appended. -/
theorem accumulateContent_monotone_and_dedup_witness :
    accumulateContent (accumulateContent "Hello" "Hello, world") "Hello, world" =
      accumulateContent "Hello" "Hello, world" ∧
    accumulateContent (accumulateContent "A" "B") "B" ≠ accumulateContent "A" "B" :=
  ⟨(accumulateContent_monotone_and_dedup "Hello" "Hello, world").2.1
      (Or.inr (by decide)),
   (accumulateContent_monotone_and_dedup "A" "B").2.2 (by decide) (by decide)
      (by decide)⟩

/-! ## C9: the context-window statistic is a running maximum -/

theorem foldl_recordContextWindowSize (sizes : List Nat) (s0 : Statistics) :
    (sizes.foldl (fun s n => recordContextWindowSize n s) s0).contextWindowSize
      = sizes.foldl max s0.contextWindowSize := by
  induction sizes generalizing s0 with
  | nil => rfl
  | cons n rest ih => exact ih (recordContextWindowSize n s0)

/-- C9: for every sequence of recorded context-window sizes between two
scenario resets, the stored `contextWindowSize` equals the maximum size
observed so far, and `recordContextWindowSize` never decreases the stored
value. -/
theorem contextWindowSize_is_running_max (sizes : List Nat) :
    ((sizes.foldl (fun s n => recordContextWindowSize n s)
        resetStatistics).contextWindowSize = sizes.foldl max 0) ∧
    ∀ (prev : Statistics) (size : Nat),
      prev.contextWindowSize ≤ (recordContextWindowSize size prev).contextWindowSize :=
  ⟨foldl_recordContextWindowSize sizes resetStatistics,
   fun prev size => Nat.le_max_left prev.contextWindowSize size⟩

/-! ## C10: tool-call statistics are recorded at most once per id -/

theorem sum_mapSet_increment (m : List (String × Nat)) (k : String) :
    ((mapSet m k ((mapGet m k).getD 0 + 1)).map Prod.snd).sum
      = (m.map Prod.snd).sum + 1 := by
  induction m with
  | nil => simp [mapSet, mapGet]
  | cons p rest ih =>
    by_cases h : p.1 = k
    · simp only [mapSet, mapGet, h, if_pos rfl]
      simp [Option.getD]
      omega
    · simp only [mapSet, mapGet, if_neg h]
      simp only [List.map_cons, List.sum_cons, ih]
      omega

theorem totalToolCallCount_recordToolCall (name : String) (s : Statistics) :
    totalToolCallCount (recordToolCall name s) = totalToolCallCount s + 1 := by
  unfold totalToolCallCount recordToolCall
  exact sum_mapSet_increment s.toolCalls name

theorem trackToolCall_invariant (st : ModelRequestTrackState) (tc : Json)
    (h : totalToolCallCount st.stats = st.processedToolCallIds.length) :
    totalToolCallCount (trackToolCall st tc).stats
      = (trackToolCall st tc).processedToolCallIds.length := by
  unfold trackToolCall
  cases hid : tc.getStr "id" with
  | none => simpa using h
  | some id =>
    cases hname : tc.getStr "name" with
    | none => simpa using h
    | some name =>
      by_cases hc : id ∈ st.processedToolCallIds
      · simpa [List.contains, List.elem_eq_mem, hc] using h
      · simp [List.contains, List.elem_eq_mem, hc, totalToolCallCount_recordToolCall, h]

theorem trackList_invariant (tcs : List Json) (st : ModelRequestTrackState)
    (h : totalToolCallCount st.stats = st.processedToolCallIds.length) :
    totalToolCallCount (tcs.foldl trackToolCall st).stats
      = (tcs.foldl trackToolCall st).processedToolCallIds.length := by
  induction tcs generalizing st with
  | nil => exact h
  | cons tc rest ih => exact ih _ (trackToolCall_invariant st tc h)

theorem trackEvent_invariant (messages : List Json) (st : ModelRequestTrackState)
    (h : totalToolCallCount st.stats = st.processedToolCallIds.length) :
    totalToolCallCount (trackModelRequestEvent st messages).stats
      = (trackModelRequestEvent st messages).processedToolCallIds.length := by
  unfold trackModelRequestEvent
  induction messages generalizing st with
  | nil => exact h
  | cons msg rest ih => exact ih _ (trackList_invariant _ st h)

theorem trackToolCall_noop (st : ModelRequestTrackState) (tc : Json)
    (h : toolCallSeen st tc) : trackToolCall st tc = st := by
  unfold trackToolCall
  cases hid : tc.getStr "id" with
  | none => rfl
  | some id =>
    cases hname : tc.getStr "name" with
    | none => rfl
    | some name =>
      simp [List.contains, List.elem_eq_mem, h id name hid hname]

theorem trackToolCall_mem_mono (st : ModelRequestTrackState) (tc : Json)
    (x : String) (h : x ∈ st.processedToolCallIds) :
    x ∈ (trackToolCall st tc).processedToolCallIds := by
  unfold trackToolCall
  cases tc.getStr "id" with
  | none => exact h
  | some id =>
    cases tc.getStr "name" with
    | none => exact h
    | some name =>
      by_cases hc : id ∈ st.processedToolCallIds
      · simpa [List.contains, List.elem_eq_mem, hc] using h
      · simp only [List.contains, List.elem_eq_mem, hc, decide_False, Bool.false_eq_true,
          if_false]
        exact List.mem_append_left _ h

theorem toolCallSeen_mono (st : ModelRequestTrackState) (tc tc' : Json)
    (h : toolCallSeen st tc) : toolCallSeen (trackToolCall st tc') tc :=
  fun id name h1 h2 => trackToolCall_mem_mono st tc' id (h id name h1 h2)

theorem trackToolCall_seen_self (st : ModelRequestTrackState) (tc : Json) :
    toolCallSeen (trackToolCall st tc) tc := by
  intro id name hid hname
  unfold trackToolCall
  rw [hid, hname]
  by_cases hc : id ∈ st.processedToolCallIds
  · simp [List.contains, List.elem_eq_mem, hc]
  · simp only [List.contains, List.elem_eq_mem, hc, decide_False, Bool.false_eq_true,
      if_false]
    exact List.mem_append_right _ (List.mem_singleton.mpr rfl)

theorem foldl_toolCallSeen_mono (tcs : List Json) (st : ModelRequestTrackState)
    (tc : Json) (h : toolCallSeen st tc) :
    toolCallSeen (tcs.foldl trackToolCall st) tc := by
  induction tcs generalizing st with
  | nil => exact h
  | cons x rest ih => exact ih _ (toolCallSeen_mono st tc x h)

theorem foldl_toolCallSeen_all (tcs : List Json) (st : ModelRequestTrackState) :
    ∀ tc ∈ tcs, toolCallSeen (tcs.foldl trackToolCall st) tc := by
  induction tcs generalizing st with
  | nil => intro tc h; cases h
  | cons x rest ih =>
    intro tc h
    rcases List.mem_cons.mp h with h | h
    · subst h
      exact foldl_toolCallSeen_mono rest _ tc (trackToolCall_seen_self st tc)
    · exact ih (trackToolCall st x) tc h

theorem foldl_trackToolCall_noop (tcs : List Json) (st : ModelRequestTrackState)
    (h : ∀ tc ∈ tcs, toolCallSeen st tc) : tcs.foldl trackToolCall st = st := by
  induction tcs with
  | nil => rfl
  | cons x rest ih =>
    rw [List.foldl_cons, trackToolCall_noop st x (h x (List.mem_cons_self x rest))]
    exact ih (fun tc htc => h tc (List.mem_cons_of_mem x htc))

theorem trackEvent_eq_foldl (messages : List Json) (st : ModelRequestTrackState) :
    trackModelRequestEvent st messages
      = (messages.flatMap messageToolCalls).foldl trackToolCall st := by
  unfold trackModelRequestEvent
  induction messages generalizing st with
  | nil => rfl
  | cons msg rest ih =>
    rw [List.foldl_cons, List.flatMap_cons, List.foldl_append]
    exact ih _

/-- C10: for every tool-call id, the per-tool invocation counter is
incremented at most once per session for that id: across any session the sum
of all per-tool counts equals the number of processed tool-call ids (each
increment consumed a fresh id), and re-processing a `model_request` event
whose tool calls were already processed leaves the tracking state (counts and
id set) completely unchanged. -/
theorem toolCallCount_once_per_id (events : List (List Json)) :
    (totalToolCallCount (runModelRequestEvents events).stats
       = (runModelRequestEvents events).processedToolCallIds.length) ∧
    ∀ (st : ModelRequestTrackState) (messages : List Json),
      trackModelRequestEvent (trackModelRequestEvent st messages) messages
        = trackModelRequestEvent st messages := by
  constructor
  · unfold runModelRequestEvents
    have h0 : totalToolCallCount initialTrackState.stats
        = initialTrackState.processedToolCallIds.length := rfl
    generalize initialTrackState = st at h0 ⊢
    induction events generalizing st with
    | nil => exact h0
    | cons e rest ih => exact ih _ (trackEvent_invariant e st h0)
  · intro st messages
    rw [trackEvent_eq_foldl, trackEvent_eq_foldl]
    exact foldl_trackToolCall_noop _ _
      (foldl_toolCallSeen_all (messages.flatMap messageToolCalls) st)

/-! ## C3: tool-result correlation and placeholder synthesis -/

theorem mapGet_mapSet_self {α : Type} (m : List (String × α)) (k : String) (v : α) :
    mapGet (mapSet m k v) k = some v := by
  induction m with
  | nil => simp [mapSet, mapGet]
  | cons p rest ih =>
    by_cases h : p.1 = k
    · simp [mapSet, mapGet, h]
    · simp [mapSet, mapGet, h, ih]

/-- Counterexample to C3: a result event for an unseen `toolCallId` whose
message itself carries a `name` synthesizes a placeholder named after the
result message (here `"search"`), not `"unknown"`. -/
theorem toolResult_placeholder_name_counterexample :
    ((mapGet (updateToolCallWithMessage toolMsgNamed "ai1" 7 []) "tc1").map
        (fun st => st.toolCall.getStr "name")) = some (some "search") ∧
    ((mapGet (updateToolCallWithMessage toolMsgNamed "ai1" 7 []) "tc1").map
        (fun st => st.toolCall.getStr "name")) ≠ some (some "unknown") := by
  constructor
  · decide
  · decide

theorem updateToolCallArgs_map_not_mentioned (tcList : List Json)
    (prev : List (String × ToolCallState)) (otherId : String)
    (h : tcList.find? (fun t => t.getField "id" = some (.str otherId)) = none) :
    mapGet (prev.map (fun p =>
      match tcList.find? (fun t => t.getField "id" = some (.str p.1)) with
      | some updated => (p.1, { p.2 with toolCall := updated })
      | none => p)) otherId = mapGet prev otherId := by
  induction prev with
  | nil => rfl
  | cons p rest ih =>
    by_cases hk : p.1 = otherId
    · subst hk
      rw [List.map_cons, h]
      simp [mapGet]
    · rw [List.map_cons]
      cases hf : tcList.find? (fun t => t.getField "id" = some (.str p.1)) with
      | none => simp [mapGet, hk, ih]
      | some u => simp [mapGet, hk, ih]

/-- C3 (amended): a tool-result event for an unseen `toolCallId` creates a
placeholder entry whose name is taken from the result message when present
and is `"unknown"` otherwise, with the result attached; a subsequent
args-finalization event whose tool-call list does not mention an id leaves
that id's entry unaltered; a result for a previously sighted id is attached
to the existing entry. -/
theorem toolResult_correlation_spec (prev : List (String × ToolCallState))
    (toolMsg : Json) (cid : String) (now : Nat) (id : String)
    (hid : toolMessageCallId toolMsg = some id) :
    (mapGet prev id = none →
      mapGet (updateToolCallWithMessage toolMsg cid now prev) id
        = some { toolCall := Json.obj
                   [("id", .str id), ("name", .str (toolMessageName toolMsg)),
                    ("args", .obj []), ("type", .str "tool_call")]
                 toolMessage := some toolMsg
                 aiMessageId := some cid
                 timestamp := now
                 errored := false }) ∧
    (∀ st, mapGet prev id = some st →
      mapGet (updateToolCallWithMessage toolMsg cid now prev) id
        = some { st with toolMessage := some toolMsg }) ∧
    (jsTruthyField toolMsg "name" = none →
      (toolMsg.getField "kwargs").bind (fun kw => jsTruthyField kw "name") = none →
      toolMessageName toolMsg = "unknown") ∧
    (∀ (messages : List Json) (otherId : String),
      (firstToolCallList messages).find?
          (fun t => t.getField "id" = some (.str otherId)) = none →
      mapGet (updateToolCallArgs messages prev) otherId = mapGet prev otherId) := by
  refine ⟨fun hnone => ?_, fun st hst => ?_, fun hn1 hn2 => ?_,
    fun messages otherId hfind => ?_⟩
  · simp only [updateToolCallWithMessage, hid, hnone]
    exact mapGet_mapSet_self prev id _
  · simp only [updateToolCallWithMessage, hid, hst]
    exact mapGet_mapSet_self prev id _
  · simp [toolMessageName, hn1, hn2]
  · exact updateToolCallArgs_map_not_mentioned (firstToolCallList messages)
      prev otherId hfind

/-- Witness for C3 (amended): a nameless result for unseen id `"tc2"` yields
an `"unknown"`-named placeholder with the result attached, and a
`model_request` event mentioning only id `"tc9"` leaves that entry as is. -/
theorem toolResult_correlation_spec_witness :
    mapGet (updateToolCallWithMessage toolMsgNoName "ai1" 3 []) "tc2"
      = some { toolCall := Json.obj
                 [("id", .str "tc2"), ("name", .str (toolMessageName toolMsgNoName)),
                  ("args", .obj []), ("type", .str "tool_call")]
               toolMessage := some toolMsgNoName
               aiMessageId := some "ai1"
               timestamp := 3
               errored := false } ∧
    toolMessageName toolMsgNoName = "unknown" ∧
    mapGet (updateToolCallArgs [modelRequestMsgOther]
        (updateToolCallWithMessage toolMsgNoName "ai1" 3 [])) "tc2"
      = mapGet (updateToolCallWithMessage toolMsgNoName "ai1" 3 []) "tc2" :=
  ⟨(toolResult_correlation_spec [] toolMsgNoName "ai1" 3 "tc2" (by decide)).1 rfl,
   (toolResult_correlation_spec [] toolMsgNoName "ai1" 3 "tc2" (by decide)).2.2.1
     (by decide) (by decide),
   (toolResult_correlation_spec (updateToolCallWithMessage toolMsgNoName "ai1" 3 [])
      toolMsgNoName "ai1" 3 "tc2" (by decide)).2.2.2 [modelRequestMsgOther] "tc2"
     (by decide)⟩

/-! ## C8: error events mark pending tool calls as errored -/

theorem toolCallState_set_errored_eq {t : ToolCallState} (h : t.errored = true) :
    { t with errored := true } = t := by
  cases t
  simp_all

theorem map_eq_self_of_eq {α : Type} {l : List α} {f : α → α}
    (h : ∀ a ∈ l, f a = a) : l.map f = l := by
  induction l with
  | nil => rfl
  | cons x xs ih =>
    rw [List.map_cons, h x (List.mem_cons_self x xs),
      ih (fun a ha => h a (List.mem_cons_of_mem x ha))]

theorem markPending_eq_map (cid : String) (prev : List (String × ToolCallState)) :
    markPendingToolCallsErrored cid prev
      = prev.map (fun p =>
          if p.2.aiMessageId = some cid ∧ p.2.toolMessage = none
          then (p.1, { p.2 with errored := true }) else p) := by
  unfold markPendingToolCallsErrored
  by_cases hany : prev.any (fun p =>
      decide (p.2.aiMessageId = some cid) &&
      decide (p.2.toolMessage = none) && !p.2.errored) = true
  · rw [if_pos hany]
  · rw [if_neg hany]
    symm
    apply map_eq_self_of_eq
    intro p hp
    by_cases hpend : p.2.aiMessageId = some cid ∧ p.2.toolMessage = none
    · rw [if_pos hpend]
      have herr : p.2.errored = true := by
        by_contra herr'
        apply hany
        rw [List.any_eq_true]
        refine ⟨p, hp, ?_⟩
        have hf : p.2.errored = false := Bool.eq_false_iff.mpr herr'
        simp [hpend.1, hpend.2, hf]
      rw [toolCallState_set_errored_eq herr]
    · rw [if_neg hpend]

theorem markPending_noop (cid : String) (prev : List (String × ToolCallState))
    (hall : ∀ p ∈ prev, p.2.aiMessageId = some cid → p.2.toolMessage = none →
      p.2.errored = true) :
    markPendingToolCallsErrored cid prev = prev := by
  unfold markPendingToolCallsErrored
  have hfalse : prev.any (fun p =>
      decide (p.2.aiMessageId = some cid) &&
      decide (p.2.toolMessage = none) && !p.2.errored) = false := by
    rw [List.any_eq_false]
    intro p hp hcontra
    simp only [Bool.and_eq_true, decide_eq_true_eq, Bool.not_eq_true'] at hcontra
    exact absurd (hall p hp hcontra.1.1 hcontra.1.2)
      (by rw [hcontra.2]; exact Bool.false_ne_true)
  simp [hfalse]

/-- C8: on an error event, every tool call owned by the current assistant
message without a result is marked errored (everything else left untouched,
characterized pointwise), the operation is a no-op when every such pending
call is already errored, and it is idempotent. -/
theorem errorEvent_marks_pending_toolCalls (cid : String)
    (prev : List (String × ToolCallState)) :
    List.Forall₂ (fun p q =>
        q = if p.2.aiMessageId = some cid ∧ p.2.toolMessage = none
            then (p.1, { p.2 with errored := true }) else p)
      prev (markPendingToolCallsErrored cid prev) ∧
    ((∀ p ∈ prev, p.2.aiMessageId = some cid → p.2.toolMessage = none →
        p.2.errored = true) →
      markPendingToolCallsErrored cid prev = prev) ∧
    markPendingToolCallsErrored cid (markPendingToolCallsErrored cid prev)
      = markPendingToolCallsErrored cid prev := by
  refine ⟨?_, markPending_noop cid prev, ?_⟩
  · rw [markPending_eq_map]
    rw [List.forall₂_map_right_iff]
    exact List.forall₂_same.mpr (fun p _ => rfl)
  · apply markPending_noop
    rw [markPending_eq_map]
    intro q hq
    rcases List.mem_map.mp hq with ⟨p, hp, rfl⟩
    by_cases hpend : p.2.aiMessageId = some cid ∧ p.2.toolMessage = none
    · rw [if_pos hpend]
      intro _ _
      rfl
    · rw [if_neg hpend]
      intro h1 h2
      exact absurd ⟨h1, h2⟩ hpend

/-- Witness for C8: marking is a no-op when the pending call is already
errored, and marking twice equals marking once on a mixed
pending/completed example. -/
theorem errorEvent_marks_pending_toolCalls_witness :
    markPendingToolCallsErrored "m1" toolCallsErroredEx = toolCallsErroredEx ∧
    markPendingToolCallsErrored "m1" (markPendingToolCallsErrored "m1" toolCallsEx)
      = markPendingToolCallsErrored "m1" toolCallsEx :=
  ⟨(errorEvent_marks_pending_toolCalls "m1" toolCallsErroredEx).2.1 (by decide),
   (errorEvent_marks_pending_toolCalls "m1" toolCallsEx).2.2⟩

/-! ## C5: interrupt decision gating -/

/-- C5: for every pending interrupt whose review configuration for the first
action's name advertises `allowedDecisions`, the coordinator's surface offers
only the resolution operations listed there; in particular with
`allowedDecisions = ["approve", "reject"]` the edit operation is not
offered. -/
theorem interrupt_gating_spec (d : InterruptEventData) (ar : ActionRequest)
    (rest : List ActionRequest) (cfg : ReviewConfig) (l : List String)
    (har : d.action_requests = ar :: rest)
    (hcfg : (d.review_configs.getD []).find?
        (fun config => config.actionName = ar.name) = some cfg)
    (hl : cfg.allowedDecisions = some l) :
    (∀ x ∈ offeredDecisions d, x ∈ l) ∧
    (l = ["approve", "reject"] → "edit" ∉ offeredDecisions d) := by
  have hall : allowedDecisionsFor d = l := by
    unfold allowedDecisionsFor
    rw [har]
    simp only [List.head?_cons]
    rw [hcfg]
    show cfg.allowedDecisions.getD ["approve", "reject"] = l
    rw [hl]
    rfl
  have hoff : offeredDecisions d
      = (if l.contains "reject" then ["reject"] else []) ++
        (if l.contains "edit" then ["edit"] else []) ++
        (if l.contains "approve" then ["approve"] else []) := by
    unfold offeredDecisions
    rw [har]
    simp only [List.head?_cons, hall]
  have hstep : ∀ (s x : String), x ∈ (if l.contains s then [s] else []) → x ∈ l := by
    intro s x hs
    by_cases hc : l.contains s = true
    · rw [if_pos hc] at hs
      rw [List.mem_singleton] at hs
      subst hs
      simpa [List.contains, List.elem_eq_mem] using hc
    · rw [if_neg hc] at hs
      cases hs
  have hsub : ∀ x ∈ offeredDecisions d, x ∈ l := by
    intro x hx
    rw [hoff] at hx
    simp only [List.mem_append] at hx
    rcases hx with (hx | hx) | hx
    · exact hstep "reject" x hx
    · exact hstep "edit" x hx
    · exact hstep "approve" x hx
  refine ⟨hsub, fun hl2 hmem => ?_⟩
  have hedit := hsub "edit" hmem
  rw [hl2] at hedit
  simp at hedit

/-- Witness for C5: the `send_email` interrupt advertising only approve and
reject does not offer edit, and renders exactly the Reject and Approve
buttons. -/
theorem interrupt_gating_spec_witness :
    "edit" ∉ offeredDecisions interruptApproveRejectEx ∧
    offeredDecisions interruptApproveRejectEx = ["reject", "approve"] :=
  ⟨(interrupt_gating_spec interruptApproveRejectEx
      { name := "send_email", args := Json.obj []
        description := some "Send an email" }
      [] { actionName := "send_email"
           allowedDecisions := some ["approve", "reject"] }
      ["approve", "reject"] rfl (by decide) rfl).2 rfl,
   by decide⟩

/-! ## C6: the approve resolution round trip -/

theorem approve_payload_stringify :
    Json.stringify (encodeInterruptResponse { decisions := [{ type := "approve" }] })
      = "\x7b\"decisions\":[\x7b\"type\":\"approve\"\x7d]\x7d" := rfl

/-- Counterexample to C6: with the text `"draft"` pending in the input box,
the approve resolution issues a POST whose `message` is `"draft"`, not the
empty string: the empty `messageOverride` of `handleSend("", ...)` is falsy
and falls back to `inputValue`. -/
theorem approve_nonempty_message_counterexample :
    ((handleInterruptApprove (some "human-in-the-loop") "key" 5
        interruptStateDraft).2.map (fun r => r.message)) = some "draft" ∧
    some "draft" ≠ some ("" : String) :=
  ⟨rfl, by decide⟩

theorem handleSend_resume (st : ClientState) (resp : InterruptResponse)
    (scenario apiKey : String) (now : Nat) (tid : String)
    (hload : st.isLoading = false) (hkey : jsTrim apiKey ≠ "")
    (htid : st.currentThreadId = some tid) :
    handleSend (some "") (some resp) (some scenario) apiKey now st
      = ({ st with currentThreadId := some tid },
         some { endpoint := apiEndpoint scenario
                message := st.inputValue
                apiKey := apiKey
                threadId := tid
                interruptResponse :=
                  some (Json.stringify (encodeInterruptResponse resp)) }) := by
  unfold handleSend
  simp [hload, htid, hkey]

/-- C6 (amended): invoking the approve resolution on a pending interrupt
clears the pending interrupt state and issues exactly one POST whose body
carries `interruptResponse` equal to the JSON encoding of
`{"decisions":[{"type":"approve"}]}` and the same `threadId` as the
conversation; the `message` field carries the current input-box text (empty
exactly when the box is empty), because the empty message override falls
back to `inputValue`. -/
theorem interrupt_approve_roundtrip (st : ClientState) (scenario apiKey : String)
    (now : Nat) (i : InterruptEventData) (tid : String)
    (hint : st.interruptData = some i) (hload : st.isLoading = false)
    (hkey : jsTrim apiKey ≠ "") (htid : st.currentThreadId = some tid) :
    (handleInterruptApprove (some scenario) apiKey now st).1.interruptData = none ∧
    (handleInterruptApprove (some scenario) apiKey now st).2
      = some { endpoint := apiEndpoint scenario
               message := st.inputValue
               apiKey := apiKey
               threadId := tid
               interruptResponse :=
                 some "\x7b\"decisions\":[\x7b\"type\":\"approve\"\x7d]\x7d" } := by
  unfold handleInterruptApprove
  rw [hint]
  rw [handleSend_resume { st with interruptData := none }
    { decisions := [{ type := "approve" }] } scenario apiKey now tid hload hkey htid]
  exact ⟨rfl, rfl⟩

/-- Witness for C6 (amended): approving with an empty input box issues the
expected resumption POST against `/api/hitl` with an empty message. -/
theorem interrupt_approve_roundtrip_witness :
    (handleInterruptApprove (some "human-in-the-loop") "key" 5
        interruptStateEmptyInput).1.interruptData = none ∧
    (handleInterruptApprove (some "human-in-the-loop") "key" 5
        interruptStateEmptyInput).2
      = some { endpoint := "/api/hitl", message := "", apiKey := "key"
               threadId := "thread-1"
               interruptResponse :=
                 some "\x7b\"decisions\":[\x7b\"type\":\"approve\"\x7d]\x7d" } :=
  interrupt_approve_roundtrip interruptStateEmptyInput "human-in-the-loop" "key" 5
    interruptApproveRejectEx "thread-1" rfl rfl (by decide) rfl

/-! ## C2: the two historical assistant-delta shapes -/

/-- Counterexample to C2: under the upstream-native `messages` label, the
Event Normalizer routes the native flat delta to kind `update` but the
legacy nested delta of the same logical content to kind `model_request`
(wrapping the chunk), so the two normalized outputs are not identical. -/
theorem event_shape_counterexample :
    transformLangGraphEvent "messages"
        (Json.arr [legacyChunk "Hi" "m1" [], chunkMetadata])
      ≠ transformLangGraphEvent "messages"
        (Json.arr [nativeChunk "Hi" "m1" [], chunkMetadata]) ∧
    (transformLangGraphEvent "messages"
        (Json.arr [nativeChunk "Hi" "m1" [], chunkMetadata])).1 = "update" ∧
    (transformLangGraphEvent "messages"
        (Json.arr [legacyChunk "Hi" "m1" [], chunkMetadata])).1 = "model_request" := by
  refine ⟨by decide, by decide, by decide⟩

/-- C2 (amended): both representations of the same logical assistant delta
are recognized as assistant chunks, and the update handler extracts
identical content, id and tool calls from either; the normalizer however
routes them to different kinds under the native `messages` label — the flat
form to `update` (payload passed through), the legacy nested form to
`model_request` wrapping the chunk. -/
theorem event_shape_equivalence_spec (content msgId : String)
    (toolCalls : List Json) :
    isAIMessageChunk (nativeChunk content msgId toolCalls) = true ∧
    isAIMessageChunk (legacyChunk content msgId toolCalls) = true ∧
    extractIncrementalTextFromChunk (nativeChunk content msgId toolCalls)
      = extractIncrementalTextFromChunk (legacyChunk content msgId toolCalls) ∧
    chunkMessageId (nativeChunk content msgId toolCalls)
      = chunkMessageId (legacyChunk content msgId toolCalls) ∧
    chunkToolCalls (nativeChunk content msgId toolCalls)
      = chunkToolCalls (legacyChunk content msgId toolCalls) ∧
    transformLangGraphEvent "messages"
        (Json.arr [nativeChunk content msgId toolCalls, chunkMetadata])
      = ("update", Json.arr [nativeChunk content msgId toolCalls, chunkMetadata]) ∧
    transformLangGraphEvent "messages"
        (Json.arr [legacyChunk content msgId toolCalls, chunkMetadata])
      = ("model_request", Json.obj [("model_request", Json.obj
          [("messages", Json.arr [legacyChunk content msgId toolCalls]),
           ("_privateState", Json.obj [])])]) := by
  refine ⟨rfl, rfl, ?_, rfl, rfl, rfl, rfl⟩
  by_cases hc : content = ""
  · subst hc
    rfl
  · simp [extractIncrementalTextFromChunk, nativeChunk, legacyChunk,
      Json.getField, Json.truthy, List.find?, hc]

/-! ## C4: frame delimiting in the transport reader -/

/-- Counterexample to C4: in the older variant (no blank-line delimiters),
`readStream` dispatches only the last frame — and does so twice around the
terminal `end` — while the first frame's payload never reaches a callback;
the newer variant dispatches every frame. -/
theorem readStream_older_variant_counterexample :
    readStream (olderVariantLines "update" [Json.num 1, Json.num 2])
      = [CallbackCall.update (Json.num 2), CallbackCall.endOfStream,
         CallbackCall.update (Json.num 2)] ∧
    CallbackCall.update (Json.num 1) ∉
      readStream (olderVariantLines "update" [Json.num 1, Json.num 2]) ∧
    readStream (newerVariantLines "update" [Json.num 1, Json.num 2])
      = [CallbackCall.update (Json.num 1), CallbackCall.update (Json.num 2),
         CallbackCall.endOfStream] := by
  refine ⟨by decide, by decide, by decide⟩

theorem olderVariant_foldl (label : String) (payloads : List Json) (p : Json)
    (st : StreamState) :
    (olderVariantLines label (payloads ++ [p])).foldl processLine st
      = { currentEventType := some label, currentData := some p
          calls := st.calls } := by
  induction payloads generalizing st with
  | nil =>
    show processLine (processLine st (RawLine.eventLine label)) (RawLine.dataLine p)
      = _
    rfl
  | cons q rest ih =>
    rw [show olderVariantLines label ((q :: rest) ++ [p])
        = RawLine.eventLine label :: RawLine.dataLine q ::
          olderVariantLines label (rest ++ [p]) from rfl]
    rw [List.foldl_cons, List.foldl_cons]
    rw [ih (processLine (processLine st (RawLine.eventLine label))
      (RawLine.dataLine q))]
    rfl

theorem newerVariant_foldl (payloads : List Json) (calls : List CallbackCall) :
    (newerVariantLines "update" payloads).foldl processLine
        { currentEventType := none, currentData := none, calls := calls }
      = { currentEventType := none, currentData := none
          calls := calls ++ payloads.map CallbackCall.update } := by
  induction payloads generalizing calls with
  | nil => simp [newerVariantLines]
  | cons p rest ih =>
    rw [show newerVariantLines "update" (p :: rest)
        = RawLine.eventLine "update" :: RawLine.dataLine p :: RawLine.blank ::
          newerVariantLines "update" rest from rfl]
    rw [List.foldl_cons, List.foldl_cons, List.foldl_cons]
    rw [show processLine (processLine (processLine
        { currentEventType := none, currentData := none, calls := calls }
        (RawLine.eventLine "update")) (RawLine.dataLine p)) RawLine.blank
      = { currentEventType := none, currentData := none
          calls := calls ++ [CallbackCall.update p] } from rfl]
    rw [ih (calls ++ [CallbackCall.update p])]
    simp

/-- C4 (amended): in the newer variant (blank-line delimited frames) every
frame is dispatched in order followed by the terminal `end`; in the older
variant (consecutive `event:`/`data:` pairs with no blank-line delimiter),
each new pair overwrites the pending one, so only the final frame is
dispatched — at stream close, and twice (once before and once after the
`end` callback) — and every earlier frame is dropped. -/
theorem readStream_framing_spec (earlierPayloads : List Json) (lastPayload : Json) :
    (readStream (olderVariantLines "update" (earlierPayloads ++ [lastPayload]))
       = [CallbackCall.update lastPayload, CallbackCall.endOfStream,
          CallbackCall.update lastPayload]) ∧
    ∀ payloads : List Json,
      readStream (newerVariantLines "update" payloads)
        = payloads.map CallbackCall.update ++ [CallbackCall.endOfStream] := by
  constructor
  · show (processPending { (processPending
      ((olderVariantLines "update" (earlierPayloads ++ [lastPayload])).foldl
        processLine {})) with
        calls := (processPending
          ((olderVariantLines "update" (earlierPayloads ++ [lastPayload])).foldl
            processLine {})).calls ++ [CallbackCall.endOfStream] }).calls = _
    rw [olderVariant_foldl "update" earlierPayloads lastPayload]
    rfl
  · intro payloads
    show (processPending { (processPending
      ((newerVariantLines "update" payloads).foldl processLine {})) with
        calls := (processPending
          ((newerVariantLines "update" payloads).foldl processLine {})).calls
          ++ [CallbackCall.endOfStream] }).calls = _
    rw [show ({} : StreamState)
      = { currentEventType := none, currentData := none, calls := [] } from rfl]
    rw [newerVariant_foldl payloads []]
    simp [processPending]
